import Mathlib

/-! # FlushCache: a shallow embedding of `FlushCache.cpp`

The functions of `FlushCache.cpp` are rendered as pure Lean functions.  Calls into
the operating system (`CreateFile`, `FindFirstFile`/`FindNextFile`,
`GetFileAttributes`, `GetLogicalProcessorInformation`, ...) are answered by
explicit parameters, and everything the program prints or calls is recorded as a
list of `Event`s.

Conventions.
* A `TCHAR` string is a `WString`: the list of its characters, terminator left out.
* `int`, `DWORD` and `size_t` values are mathematical integers and naturals.  All
  values that occur are bounded by the length of the file list or by the number of
  logical processors, so the model coincides with the machine arithmetic as long as
  those two quantities are representable in an `int`.
* Abnormal termination (the run-time library's invalid-parameter handler, walking
  an iterator past `end()`) is an explicit outcome, never a silent default.
-/

namespace FlushCache

/-! ## Strings and platform constants -/

/-- A `TCHAR` string without its terminating zero; its characters are not `NUL`. -/
abbrev WString := List Char

/-- The string terminator `'\0'`. -/
def NUL : Char := Char.ofNat 0

/-- The path separator, written `TEXT("\\")` in the source. -/
def backslash : Char := Char.ofNat 92

/-- Value of `MAX_PATH` in the Windows SDK headers. -/
def MAX_PATH : Nat := 260

/-- Value of `FILE_ATTRIBUTE_DIRECTORY` in the Windows SDK headers. -/
def FILE_ATTRIBUTE_DIRECTORY : Nat := 16

/-- The value `(~0u)` that `GetFileAttributes` returns for a missing path. -/
def INVALID_FILE_ATTRIBUTES : Nat := 4294967295

/-- Value of `ERROR_ACCESS_DENIED` in the Windows SDK headers. -/
def ERROR_ACCESS_DENIED : Nat := 5

/-- Value of `ERROR_SHARING_VIOLATION` in the Windows SDK headers. -/
def ERROR_SHARING_VIOLATION : Nat := 32

/-- Value of `ERROR_INSUFFICIENT_BUFFER` in the Windows SDK headers. -/
def ERROR_INSUFFICIENT_BUFFER : Nat := 122

/-- Value of `ERROR_ALREADY_EXISTS` in the Windows SDK headers. -/
def ERROR_ALREADY_EXISTS : Nat := 183

/-- Value of the enumerator `RelationProcessorCore` in the Windows SDK headers. -/
def RelationProcessorCore : Nat := 0

/-- The character `s[k]` of a zero-terminated string, for `k` up to the terminator. -/
def charAt (s : WString) (k : Nat) : Char := s.getD k NUL

/-- The composed path `dirPath + TEXT("\\") + name`. -/
def joinPath (dirPath name : WString) : WString := dirPath ++ backslash :: name

/-! ## Global flags and the event log -/

/-- The flags set by `ParseArgs`: `gVerbose`, `gShowErrors`, `gStartFileOrDir`. -/
structure Globals where
  gVerbose : Bool
  gShowErrors : Bool
  gStartFileOrDir : WString
deriving DecidableEq, Repr

/-- The initial values of the globals (`gStartFileOrDir` is zero-initialised). -/
def Globals.initial : Globals := ⟨false, true, []⟩

/-- What the program does that is visible from outside: the lines it prints and
the three eviction-related functions it enters. -/
inductive Event where
  | PrintHelp
  | printUnknownOption (arg : WString)
  | printFlushed (file : WString)
  | printErrorFlushing (lastError : Nat) (file : WString)
  | printPathTooLong (dirPath : WString) (len : Nat)
  | printErrorClearing (lastError : Nat) (drive : WString)
  | printNotFound (path : WString)
  | printFlushingDrive
  | printGatheringFiles
  | FlushFile (file : WString)
  | RecurseDirectory (dirPath : WString)
  | FlushDrive (drive : WString)
deriving DecidableEq, Repr

/-- The event is an entry into one of `FlushFile`, `RecurseDirectory`, `FlushDrive`. -/
def Event.isEviction : Event → Bool
  | .FlushFile _ => true
  | .RecurseDirectory _ => true
  | .FlushDrive _ => true
  | _ => false

/-- The result of a `CreateFile` call: a usable handle, or `INVALID_HANDLE_VALUE`
together with the value `GetLastError` then reports. -/
inductive OpenResult where
  | handle
  | INVALID_HANDLE_VALUE (lastError : Nat)
deriving DecidableEq, Repr

/-! ## `GetIteratorOffset` -/

/-- The function `GetIteratorOffset`: a `FileList::const_iterator` is the part of the list from
its position on (`end()` is `[]`); incrementing `end()` has no defined result. -/
def GetIteratorOffset {α : Type} (start : List α) : (offset : Nat) → Option (List α)
  | 0 => some start
  | offset + 1 =>
    match start with
    | [] => none
    | _ :: itr => GetIteratorOffset itr offset

/-- The function `GetIteratorOffset` applied to an `int`: the conversion to `size_t` turns a
negative value into one larger than any list, so the walk leaves the list. -/
def GetIteratorOffsetInt {α : Type} (start : List α) (offset : Int) : Option (List α) :=
  if offset < 0 then none else GetIteratorOffset start offset.toNat

/-! ## `FlushFile` -/

/-- The function `FlushFile`: open the file unbuffered and close it again. -/
def FlushFile (g : Globals) (CreateFile : WString → OpenResult) (file : WString) :
    Bool × List Event :=
  match CreateFile file with
  | .handle =>
    (true, Event.FlushFile file :: (if g.gVerbose then [Event.printFlushed file] else []))
  | .INVALID_HANDLE_VALUE lastError =>
    (false, Event.FlushFile file ::
      (if g.gShowErrors then [Event.printErrorFlushing lastError file] else []))

/-! ## `RecurseDirectory` -/

/-- One `WIN32_FIND_DATA` record as returned by `FindFirstFile`/`FindNextFile`,
together with the records the same enumeration yields for the entry itself when
it is a directory. -/
inductive Entry where
  | mk (cFileName : WString) (dwFileAttributes : Nat) (children : List Entry) : Entry

/-- The file list under construction and the lines printed so far. -/
structure EnumState where
  fileList : List WString
  out : List Event
deriving DecidableEq, Repr

/-- The test `_tcscmp(name, TEXT(".")) == 0 || _tcscmp(name, TEXT("..")) == 0`. -/
def isDotOrDotDot (name : WString) : Bool :=
  name == ['.'] || name == ['.', '.']

mutual
/-- The function `RecurseDirectory`: `listing` is what `FindFirstFile`/`FindNextFile` enumerate
for `dirPath\*`; the empty listing stands for `FindFirstFile` failing. -/
def RecurseDirectory (g : Globals) (dirPath : WString) (listing : List Entry)
    (st : EnumState) : Bool × EnumState :=
  let len := dirPath.length + 2
  if len ≥ MAX_PATH then
    (false, { st with out := st.out ++ Event.RecurseDirectory dirPath ::
        (if g.gShowErrors then [Event.printPathTooLong dirPath len] else []) })
  else
    let st := { st with out := st.out ++ [Event.RecurseDirectory dirPath] }
    match listing with
    | [] => (false, st)
    | findData :: rest => (true, findNextLoop g dirPath rest (loopBody g dirPath findData st))
termination_by structural listing
/-- The iterations of the `do ... while (FindNextFile(...) != 0)` loop that follow
the first one. -/
def findNextLoop (g : Globals) (dirPath : WString) (listing : List Entry)
    (st : EnumState) : EnumState :=
  match listing with
  | [] => st
  | findData :: rest => findNextLoop g dirPath rest (loopBody g dirPath findData st)
termination_by structural listing
/-- The body of the `do ... while` loop for one `findData`. -/
def loopBody (g : Globals) (dirPath : WString) (findData : Entry)
    (st : EnumState) : EnumState :=
  match findData with
  | .mk cFileName dwFileAttributes children =>
    if dwFileAttributes &&& FILE_ATTRIBUTE_DIRECTORY ≠ 0 then
      if isDotOrDotDot cFileName then st
      else (RecurseDirectory g (joinPath dirPath cFileName) children st).2
    else
      { st with fileList := st.fileList ++ [joinPath dirPath cFileName] }
termination_by structural findData
end

/-! ## `ParseArgs` -/

/-- Outcome of `ParseArgs`: the returned `bool` (`none` when `_tcscpy_s` found the
argument too long for `gStartFileOrDir` and the invalid-parameter handler ended the
process), the globals and the lines printed. -/
structure ParseResult where
  ret : Option Bool
  g : Globals
  out : List Event
deriving DecidableEq, Repr

/-- The `for` loop of `ParseArgs` from index `i` on.  `oob i` is the character found
at `argv[i][1]` when `argv[i]` is the empty string (a read behind the terminator). -/
def ParseArgsLoop (oob : Nat → Char) :
    (i : Nat) → (rest : List WString) → Globals → List Event → ParseResult
  | _, [], g, out => ⟨some true, g, out⟩
  | i, arg :: rest, g, out =>
    if charAt arg 0 ≠ NUL ∧ charAt arg 0 ≠ '/' ∧ charAt arg 0 ≠ '-' then
      if arg.length < MAX_PATH then
        ParseArgsLoop oob (i + 1) rest { g with gStartFileOrDir := arg } out
      else ⟨none, g, out⟩
    else
      let c := if charAt arg 0 = NUL then oob i else charAt arg 1
      if c = 'v' then ParseArgsLoop oob (i + 1) rest { g with gVerbose := true } out
      else if c = 'q' then ParseArgsLoop oob (i + 1) rest { g with gShowErrors := false } out
      else if c = 'h' then ⟨some false, g, out ++ [Event.PrintHelp]⟩
      else ⟨some false, g, out ++ [Event.printUnknownOption arg, Event.PrintHelp]⟩

/-- The function `ParseArgs`: `argv` is the whole argument vector, program name included, and
`argc` is its length. -/
def ParseArgs (oob : Nat → Char) (g : Globals) (argv : List WString) : ParseResult :=
  if argv.length ≤ 1 then ⟨some true, g, []⟩
  else ParseArgsLoop oob 1 (argv.drop 1) g []

/-! ## `GetCoreCount` -/

/-- The two fields of `SYSTEM_LOGICAL_PROCESSOR_INFORMATION` that are read. -/
structure SYSTEM_LOGICAL_PROCESSOR_INFORMATION where
  ProcessorMask : Nat
  Relationship : Nat
deriving DecidableEq, Repr

/-- The `for` loop of `CountSetBits`: `iters` iterations are left. -/
def CountSetBitsLoop (bitMask : Nat) : (iters : Nat) → (bitTest : Nat) →
    (bitSetCount : Nat) → Nat
  | 0, _, bitSetCount => bitSetCount
  | iters + 1, bitTest, bitSetCount =>
    CountSetBitsLoop bitMask iters (bitTest / 2)
      (bitSetCount + (if bitMask &&& bitTest ≠ 0 then 1 else 0))

/-- The lambda `CountSetBits`; `sizeofULONG_PTR` is `sizeof(ULONG_PTR)` (4 or 8). -/
def CountSetBits (sizeofULONG_PTR : Nat) (bitMask : Nat) : Nat :=
  let LSHIFT := sizeofULONG_PTR * 8 - 1
  CountSetBitsLoop bitMask (LSHIFT + 1) (1 <<< LSHIFT) 0

/-- One call of `GetLogicalProcessorInformation`: it fails with a last-error code, or
succeeds and leaves the complete records in the buffer. -/
inductive GlpiCall where
  | FALSE (lastError : Nat)
  | TRUE (buffer : List SYSTEM_LOGICAL_PROCESSOR_INFORMATION)
deriving DecidableEq, Repr

/-- The `while (byteOffset + sizeof(...) <= returnLength)` loop over the records. -/
def scanBuffer (sizeofULONG_PTR : Nat) :
    List SYSTEM_LOGICAL_PROCESSOR_INFORMATION → (logicalProcessorCount : Nat) → Nat
  | [], logicalProcessorCount => logicalProcessorCount
  | ptr :: rest, logicalProcessorCount =>
    scanBuffer sizeofULONG_PTR rest
      (if ptr.Relationship = RelationProcessorCore then
        logicalProcessorCount + CountSetBits sizeofULONG_PTR ptr.ProcessorMask
      else logicalProcessorCount)

/-- The constant `defaultProcessorCount`. -/
def defaultProcessorCount : Nat := 2

/-- The `do ... while (!done)` loop; `calls` lists the answers of the successive
calls.  `none`: every listed call asked for a larger buffer, the loop goes on. -/
def queryLoop (sizeofULONG_PTR : Nat) : (calls : List GlpiCall) → Option Nat
  | [] => none
  | .FALSE lastError :: rest =>
    if lastError = ERROR_INSUFFICIENT_BUFFER then queryLoop sizeofULONG_PTR rest
    else some defaultProcessorCount
  | .TRUE buffer :: _ =>
    let logicalProcessorCount := scanBuffer sizeofULONG_PTR buffer 0
    some (if logicalProcessorCount > 0 then logicalProcessorCount else 1)

/-- The function `GetCoreCount`: `glpi` is `none` when `GetProcAddress` finds no
`GetLogicalProcessorInformation`, else the answers of the successive calls. -/
def GetCoreCount (sizeofULONG_PTR : Nat) (glpi : Option (List GlpiCall)) : Option Nat :=
  match glpi with
  | none => some defaultProcessorCount
  | some calls => queryLoop sizeofULONG_PTR calls

/-! ## `FlushDrive` -/

/-- The volume name `TEXT("\\\\.\\") + drive`. -/
def fullDrivePath (drive : WString) : WString :=
  [backslash, backslash, '.', backslash] ++ drive

/-- The function `FlushDrive`: open the volume and close it again. -/
def FlushDrive (CreateFile : WString → OpenResult) (drive : WString) : Bool × List Event :=
  match CreateFile (fullDrivePath drive) with
  | .handle => (true, [Event.FlushDrive drive])
  | .INVALID_HANDLE_VALUE gle =>
    if gle ≠ ERROR_SHARING_VIOLATION ∧ gle ≠ ERROR_ACCESS_DENIED then
      (false, [Event.FlushDrive drive, Event.printErrorClearing gle drive])
    else (true, [Event.FlushDrive drive])

/-! ## `_tmain` -/

/-- The values computed by one iteration of the partition loop of `_tmain`. -/
structure Partition where
  start : Int
  countLeft : Int
  chunkToUse : Int
deriving DecidableEq, Repr

/-- The statement `int chunk = fileList.size() / chunkDivizor;` (an unsigned division). -/
def chunkSize (size chunkDivizor : Nat) : Int := ((size / chunkDivizor : Nat) : Int)

/-- The arithmetic of iteration `i` of the partition loop: the offset `i*chunk`
handed to `GetIteratorOffset`, `countLeft` and the final `chunkToUse`. -/
def partitionBounds (size : Nat) (chunkDivizor chunk : Int) (i : Nat) : Partition :=
  let countLeft : Int := (size : Int) - (i : Int) * chunk
  let chunkToUse : Int := if countLeft > chunk then chunk else countLeft
  let chunkToUse : Int := if (i : Int) = chunkDivizor - 1 then countLeft else chunkToUse
  ⟨(i : Int) * chunk, countLeft, chunkToUse⟩

/-- What iteration `i` of the loop computes for a file list of `size` entries and
`chunkDivizor` cores. -/
def partitionAt (size chunkDivizor : Nat) (i : Nat) : Partition :=
  partitionBounds size (chunkDivizor : Int) (chunkSize size chunkDivizor) i

/-- The partitions of all iterations `i = 0, ..., chunkDivizor - 1` of the loop. -/
def partitions (size chunkDivizor : Nat) : List Partition :=
  (List.range chunkDivizor).map (partitionAt size chunkDivizor)

/-- The index `k` belongs to the range `[start, start + chunkToUse)` of the partition. -/
def Partition.contains (p : Partition) (k : Int) : Prop :=
  p.start ≤ k ∧ k < p.start + p.chunkToUse

/-- The lambda `loopFunction`, run by one thread: `FlushFile` on every entry from
`start` up to `endItr`.  Two iterators into the same list are equal when they leave
equally many entries behind them. -/
def loopFunction (g : Globals) (CreateFile : WString → OpenResult) :
    (start : List WString) → (endItr : List WString) → Option (List Event)
  | [], endItr => if endItr.length = 0 then some [] else none
  | file :: itr, endItr =>
    if (file :: itr).length = endItr.length then some []
    else (loopFunction g CreateFile itr endItr).map
      (fun events => (FlushFile g CreateFile file).2 ++ events)

/-- The partition loop of `_tmain` from index `i` on, `remaining` iterations left;
the result lists, per thread, what the thread does. -/
def spawnThreads (g : Globals) (CreateFile : WString → OpenResult)
    (fileList : List WString) (chunkDivizor chunk : Int) :
    (remaining : Nat) → (i : Nat) → Option (List (List Event))
  | 0, _ => some []
  | remaining + 1, i =>
    let p := partitionBounds fileList.length chunkDivizor chunk i
    match GetIteratorOffsetInt fileList p.start with
    | none => none
    | some start =>
      match GetIteratorOffsetInt start p.chunkToUse with
      | none => none
      | some endItr =>
        match loopFunction g CreateFile start endItr with
        | none => none
        | some thread =>
          (spawnThreads g CreateFile fileList chunkDivizor chunk remaining (i + 1)).map
            (fun threads => thread :: threads)

/-- The result of `CreateMutex`: `NULL`, `INVALID_HANDLE_VALUE`, or a handle together
with the value of `GetLastError` after the call. -/
inductive MutexResult where
  | NULL
  | INVALID_HANDLE_VALUE
  | handle (lastError : Nat)
deriving DecidableEq, Repr

/-- The answers of the operating system to one run of the program. -/
structure Env where
  /-- The result of `CreateMutex(NULL, FALSE, TEXT("FlushCache"))`. -/
  CreateMutex : MutexResult
  /-- The character behind the terminator of an empty `argv[i]`. -/
  oob : Nat → Char
  /-- The string that `GetCurrentDirectory` writes into `gStartFileOrDir`. -/
  GetCurrentDirectory : WString
  /-- The result of `GetFileAttributes` for a path. -/
  GetFileAttributes : WString → Nat
  /-- What `FindFirstFile`/`FindNextFile` enumerate for a directory and below it. -/
  FindFiles : WString → List Entry
  /-- The result of the `CreateFile` call of `FlushFile` for a path. -/
  CreateFileNoBuffering : WString → OpenResult
  /-- The result of the `CreateFile` call of `FlushDrive` for a volume name. -/
  CreateFileVolume : WString → OpenResult
  /-- The value of `sizeof(ULONG_PTR)`. -/
  sizeofULONG_PTR : Nat
  /-- The entry point `GetLogicalProcessorInformation`, when there is one, as the
  answers of its successive calls. -/
  glpi : Option (List GlpiCall)

/-- How a run ends: `return` of an exit code, abnormal termination, or no return
within the listed answers of `GetLogicalProcessorInformation`. -/
inductive Status where
  | exit (code : Int)
  | abnormal
  | noReturn
deriving DecidableEq, Repr

/-- A run of `_tmain`: how it ends, what the main thread prints and calls, and what
each worker thread does. -/
structure Result where
  status : Status
  out : List Event
  threads : List (List Event)
deriving DecidableEq, Repr

/-- The branch of `_tmain` for a directory that is not a bare drive. -/
def flushDirectory (env : Env) (g : Globals) (out : List Event) : Result :=
  let out := out ++ (if g.gVerbose then [Event.printGatheringFiles] else [])
  let st := (RecurseDirectory g g.gStartFileOrDir (env.FindFiles g.gStartFileOrDir)
    ⟨[], out⟩).2
  match GetCoreCount env.sizeofULONG_PTR env.glpi with
  | none => ⟨Status.noReturn, st.out, []⟩
  | some coreCount =>
    if coreCount = 0 then ⟨Status.abnormal, st.out, []⟩
    else
      let chunkDivizor : Int := (coreCount : Int)
      let chunk : Int := chunkSize st.fileList.length coreCount
      match spawnThreads g env.CreateFileNoBuffering st.fileList chunkDivizor chunk
          coreCount 0 with
      | none => ⟨Status.abnormal, st.out, []⟩
      | some threads => ⟨Status.exit 0, st.out, threads⟩

/-- The test `len == 2 && gStartFileOrDir[1] == TEXT(':')`. -/
def isDrive (target : WString) : Bool :=
  target.length == 2 && charAt target 1 == ':'

/-- The lines `if (!gStartFileOrDir[0]) ... else ...` of `_tmain`: the globals with
the target filled in, and `fileAttr`. -/
def resolveTarget (env : Env) (g : Globals) : Globals × Nat :=
  if charAt g.gStartFileOrDir 0 = NUL then
    ({ g with gStartFileOrDir := env.GetCurrentDirectory }, FILE_ATTRIBUTE_DIRECTORY)
  else (g, env.GetFileAttributes g.gStartFileOrDir)

/-- The part of `_tmain` after `ParseArgs` has returned `true`. -/
def flushTarget (env : Env) (g : Globals) (out : List Event) : Result :=
  let ret : Int := 0
  let fileAttr := (resolveTarget env g).2
  let g := (resolveTarget env g).1
  if fileAttr = INVALID_FILE_ATTRIBUTES then
    ⟨Status.exit 2,
      out ++ (if g.gShowErrors then [Event.printNotFound g.gStartFileOrDir] else []), []⟩
  else if fileAttr &&& FILE_ATTRIBUTE_DIRECTORY ≠ 0 then
    if isDrive g.gStartFileOrDir then
      let out := out ++ (if g.gVerbose then [Event.printFlushingDrive] else [])
      let flushDriveSuccess := FlushDrive env.CreateFileVolume g.gStartFileOrDir
      ⟨Status.exit (if flushDriveSuccess.1 then ret else 5), out ++ flushDriveSuccess.2, []⟩
    else flushDirectory env g out
  else
    ⟨Status.exit ret, out ++ (FlushFile g env.CreateFileNoBuffering g.gStartFileOrDir).2, []⟩

/-- The function `_tmain`. -/
def _tmain (env : Env) (argv : List WString) : Result :=
  match env.CreateMutex with
  | .NULL => ⟨Status.exit 4, [], []⟩
  | .INVALID_HANDLE_VALUE => ⟨Status.exit 4, [], []⟩
  | .handle lastError =>
    if lastError = ERROR_ALREADY_EXISTS then ⟨Status.exit 4, [], []⟩
    else
      let parsed := ParseArgs env.oob Globals.initial argv
      match parsed.ret with
      | none => ⟨Status.abnormal, parsed.out, []⟩
      | some false => ⟨Status.exit 3, parsed.out, []⟩
      | some true => flushTarget env parsed.g parsed.out

/-! ## Notions used to state the properties of `_tmain` and `ParseArgs` -/

/-- The singleton lock is acquired: `CreateMutex` returns a handle and the mutex
did not exist before. -/
def Env.lockAcquired (env : Env) : Bool :=
  match env.CreateMutex with
  | .handle lastError => lastError != ERROR_ALREADY_EXISTS
  | _ => false

/-- No eviction is attempted in the run: no thread was started and the main thread
entered none of `FlushFile`, `RecurseDirectory`, `FlushDrive`. -/
def Result.noEviction (r : Result) : Bool :=
  r.out.all (fun e => !e.isEviction) && r.threads.isEmpty

/-- The event is one that `RecurseDirectory` records: its own call or the line about
a path that is too long. -/
def Event.isEnumeration : Event → Bool
  | .RecurseDirectory _ => true
  | .printPathTooLong _ _ => true
  | _ => false

/-- The attributes are those of a regular file: the directory bit is not set. -/
def isRegular (dwFileAttributes : Nat) : Bool :=
  dwFileAttributes &&& FILE_ATTRIBUTE_DIRECTORY == 0

/-- The full path `p` is a regular file reachable from the directory `dirPath` whose
entries are `listing`: a regular file of the directory itself, or one reachable from
a subdirectory other than the pseudo-entries `.` and `..`. -/
inductive ReachableFile : WString → List Entry → WString → Prop where
  | file {dirPath : WString} {listing : List Entry} {name : WString} {attrs : Nat}
      {children : List Entry} :
      Entry.mk name attrs children ∈ listing → isRegular attrs = true →
      ReachableFile dirPath listing (joinPath dirPath name)
  | inSubdir {dirPath : WString} {listing : List Entry} {name : WString} {attrs : Nat}
      {children : List Entry} {p : WString} :
      Entry.mk name attrs children ∈ listing → isRegular attrs = false →
      isDotOrDotDot name = false → ReachableFile (joinPath dirPath name) children p →
      ReachableFile dirPath listing p

/-- The full path `p` is a directory reachable from the directory `dirPath` whose
entries are `listing` (the pseudo-entries `.` and `..` left aside). -/
inductive ReachableDir : WString → List Entry → WString → Prop where
  | dir {dirPath : WString} {listing : List Entry} {name : WString} {attrs : Nat}
      {children : List Entry} :
      Entry.mk name attrs children ∈ listing → isRegular attrs = false →
      isDotOrDotDot name = false → ReachableDir dirPath listing (joinPath dirPath name)
  | inSubdir {dirPath : WString} {listing : List Entry} {name : WString} {attrs : Nat}
      {children : List Entry} {p : WString} :
      Entry.mk name attrs children ∈ listing → isRegular attrs = false →
      isDotOrDotDot name = false → ReachableDir (joinPath dirPath name) children p →
      ReachableDir dirPath listing p

/-- The name of an entry. -/
def Entry.cFileName : Entry → WString
  | .mk cFileName _ _ => cFileName

mutual
/-- The listing is that of a directory tree: in every directory the names are
pairwise different and no name contains the path separator. -/
def wellFormed : List Entry → Bool
  | [] => true
  | e :: rest =>
    wellFormedEntry e && rest.all (fun e2 => e2.cFileName != e.cFileName) && wellFormed rest
/-- The entry has a name without path separator and, when it is a directory other
than `.` and `..`, a well-formed listing. -/
def wellFormedEntry : Entry → Bool
  | .mk cFileName dwFileAttributes children =>
    !cFileName.contains backslash &&
      (isRegular dwFileAttributes || isDotOrDotDot cFileName || wellFormed children)
end

/-- The second listing enumerates the same directory tree as the first one, with
the entries of any directory in a possibly different order. -/
inductive Reordered : List Entry → List Entry → Prop where
  | nil : Reordered [] []
  | cons {name : WString} {attrs : Nat} {children children2 rest rest2 : List Entry} :
      Reordered children children2 → Reordered rest rest2 →
      Reordered (Entry.mk name attrs children :: rest) (Entry.mk name attrs children2 :: rest2)
  | swap {a b : Entry} {rest : List Entry} : Reordered (a :: b :: rest) (b :: a :: rest)
  | trans {l1 l2 l3 : List Entry} : Reordered l1 l2 → Reordered l2 l3 → Reordered l1 l3

mutual
/-- The full paths of the regular files reachable from `dirPath`, one for each file
entry of the tree. -/
def regularFiles (dirPath : WString) : List Entry → List WString
  | [] => []
  | e :: rest => regularFilesOf dirPath e ++ regularFiles dirPath rest
/-- The full paths of the regular files that one entry of `dirPath` stands for. -/
def regularFilesOf (dirPath : WString) : Entry → List WString
  | .mk cFileName dwFileAttributes children =>
    if isRegular dwFileAttributes then [joinPath dirPath cFileName]
    else if isDotOrDotDot cFileName then []
    else regularFiles (joinPath dirPath cFileName) children
end

/-- Every directory that `RecurseDirectory` is to enter, the root included, passes
its length test `_tcslen(dirPath) + 2 < MAX_PATH`. -/
def PathsFit (dirPath : WString) (listing : List Entry) : Prop :=
  dirPath.length + 2 < MAX_PATH ∧
    ∀ d, ReachableDir dirPath listing d → d.length + 2 < MAX_PATH

mutual
/-- A check of the length test on every subdirectory below `dirPath`. -/
def dirsFit (dirPath : WString) : List Entry → Bool
  | [] => true
  | e :: rest => dirFits dirPath e && dirsFit dirPath rest
/-- A check of the length test on one entry of `dirPath` and on what lies below it. -/
def dirFits (dirPath : WString) : Entry → Bool
  | .mk cFileName dwFileAttributes children =>
    isRegular dwFileAttributes || isDotOrDotDot cFileName ||
      (decide ((joinPath dirPath cFileName).length + 2 < MAX_PATH) &&
        dirsFit (joinPath dirPath cFileName) children)
end

/-- A check that decides `PathsFit`. -/
def pathsFit (dirPath : WString) (listing : List Entry) : Bool :=
  decide (dirPath.length + 2 < MAX_PATH) && dirsFit dirPath listing

/-- The file list that `RecurseDirectory` builds from an empty list. -/
def enumerated (g : Globals) (dirPath : WString) (listing : List Entry) : List WString :=
  (RecurseDirectory g dirPath listing ⟨[], []⟩).2.fileList

/-! ## Sample inputs -/

/-- The program name used as `argv[0]` in the sample runs. -/
def sampleProgram : WString := ['F', 'l', 'u', 's', 'h', 'C', 'a', 'c', 'h', 'e']

/-- A directory with the file `a`, the subdirectory `d` holding `b` and `c`, and the
file `e`, enumerated with the pseudo-entries `.` and `..`. -/
def sampleListing : List Entry :=
  [.mk ['.'] 16 [], .mk ['.', '.'] 16 [], .mk ['a'] 32 [],
    .mk ['d'] 16 [.mk ['.'] 16 [], .mk ['.', '.'] 16 [], .mk ['b'] 32 [], .mk ['c'] 32 []],
    .mk ['e'] 32 []]

/-- A sample host: the lock is free, every path has the attributes `fileAttr`, every
directory enumerates as `listing`, files open, the volume opens as `volume`, and the
topology query reports one core with four logical processors on the second call. -/
def sampleEnv (fileAttr : Nat) (listing : List Entry) (volume : OpenResult) : Env where
  CreateMutex := MutexResult.handle 0
  oob := fun _ => NUL
  GetCurrentDirectory := ['C', ':', backslash, 'w']
  GetFileAttributes := fun _ => fileAttr
  FindFiles := fun _ => listing
  CreateFileNoBuffering := fun _ => OpenResult.handle
  CreateFileVolume := fun _ => volume
  sizeofULONG_PTR := 8
  glpi := some [GlpiCall.FALSE ERROR_INSUFFICIENT_BUFFER, GlpiCall.TRUE [⟨15, 0⟩]]

/-- The directory in which the sample trees are enumerated. -/
def sampleRoot : WString := ['C', ':', backslash, 'w']

/-- The entries of a directory that holds only the file `f`. -/
def deepListingB : List Entry :=
  [.mk ['.'] 16 [], .mk ['.', '.'] 16 [], .mk ['f'] 32 []]

/-- The entries of a directory that holds the file `g` and a subdirectory `bbb...b`
of 130 characters with the entries `deepListingB`. -/
def deepListingA : List Entry :=
  [.mk ['.'] 16 [], .mk ['.', '.'] 16 [], .mk ['g'] 32 [],
    .mk (List.replicate 130 'b') 16 deepListingB]

/-- The entries of a directory that holds only a subdirectory `aaa...a` of 130
characters with the entries `deepListingA`. -/
def deepListing : List Entry :=
  [.mk ['.'] 16 [], .mk ['.', '.'] 16 [], .mk (List.replicate 130 'a') 16 deepListingA]

/-- The full path of the file `g` of `deepListing` below `sampleRoot`. -/
def deepFileG : WString := joinPath (joinPath sampleRoot (List.replicate 130 'a')) ['g']

/-- The full path of the file `f` of `deepListing` below `sampleRoot`. -/
def deepFileF : WString :=
  joinPath (joinPath (joinPath sampleRoot (List.replicate 130 'a')) (List.replicate 130 'b'))
    ['f']

/-- The answers of `n` calls that all ask for a larger buffer. -/
def insufficientBuffer (n : Nat) : List GlpiCall :=
  List.replicate n (GlpiCall.FALSE ERROR_INSUFFICIENT_BUFFER)

/-- The call is answered with something other than a request for a larger buffer. -/
def GlpiCall.isFinal : GlpiCall → Bool
  | .FALSE lastError => lastError != ERROR_INSUFFICIENT_BUFFER
  | .TRUE _ => true

/-! ## The arithmetic of the partition loop -/

theorem chunkSize_mul_le (L C : Nat) : chunkSize L C * (C : Int) ≤ (L : Int) := by
  unfold chunkSize
  exact_mod_cast Nat.div_mul_le_self L C

theorem chunkSize_nonneg (L C : Nat) : 0 ≤ chunkSize L C := by
  unfold chunkSize
  exact Int.ofNat_nonneg _

/-- Before the last iteration at least two chunks are left. -/
theorem countLeft_ge_two_chunks (L C i : Nat) (hi : i + 1 < C) :
    2 * chunkSize L C ≤ (L : Int) - (i : Int) * chunkSize L C := by
  have h1 := chunkSize_mul_le L C
  have h2 := chunkSize_nonneg L C
  have h3 : ((i : Int) + 2) ≤ (C : Int) := by exact_mod_cast hi
  have h4 : ((i : Int) + 2) * chunkSize L C ≤ (C : Int) * chunkSize L C :=
    mul_le_mul_of_nonneg_right h3 h2
  nlinarith

/-- Every iteration but the last one takes exactly one chunk. -/
theorem partitionAt_inner (L C i : Nat) (hi : i + 1 < C) :
    partitionAt L C i =
      ⟨(i : Int) * chunkSize L C, (L : Int) - (i : Int) * chunkSize L C, chunkSize L C⟩ := by
  have h := countLeft_ge_two_chunks L C i hi
  have h2 := chunkSize_nonneg L C
  have hne : ¬ ((i : Int) = (C : Int) - 1) := by
    have : ((i : Int) + 1) < (C : Int) := by exact_mod_cast hi
    omega
  unfold partitionAt partitionBounds
  simp only [hne, if_false]
  by_cases hgt : (L : Int) - (i : Int) * chunkSize L C > chunkSize L C
  · simp only [hgt, if_true]
  · simp only [hgt, if_false]
    have : (L : Int) - (i : Int) * chunkSize L C = chunkSize L C := by omega
    rw [this]

/-- The last iteration takes everything that is left. -/
theorem partitionAt_last (L C i : Nat) (hi : i + 1 = C) :
    partitionAt L C i =
      ⟨(i : Int) * chunkSize L C, (L : Int) - (i : Int) * chunkSize L C,
        (L : Int) - (i : Int) * chunkSize L C⟩ := by
  have he : (i : Int) = (C : Int) - 1 := by
    have : ((i : Int) + 1) = (C : Int) := by exact_mod_cast hi
    omega
  unfold partitionAt partitionBounds
  simp only [he, if_true]

/-- The lengths of the partitions: `C - 1` chunks, then the rest. -/
theorem partitions_chunkToUse (L C : Nat) (hC : 1 ≤ C) :
    (partitions L C).map (fun p => p.chunkToUse) =
      List.replicate (C - 1) (chunkSize L C) ++
        [(L : Int) - ((C - 1 : Nat) : Int) * chunkSize L C] := by
  obtain ⟨n, rfl⟩ : ∃ n, C = n + 1 := ⟨C - 1, by omega⟩
  unfold partitions
  rw [List.range_succ, List.map_append, List.map_append, List.map_map]
  congr 1
  · rw [List.eq_replicate_iff]
    refine ⟨by simp, ?_⟩
    intro b hb
    rw [List.mem_map] at hb
    obtain ⟨i, hi, rfl⟩ := hb
    rw [List.mem_range] at hi
    simp only [Function.comp, partitionAt_inner L (n + 1) i (by omega)]
  · simp only [List.map_cons, List.map_nil, Nat.add_sub_cancel,
      partitionAt_last L (n + 1) n rfl]

/-- C2: when there are more cores than worklist entries (`C > L`), at least `C - L`
of the `C` partitions computed by the loop have length 0, and the lengths of all
`C` partitions add up to `L`. -/
theorem more_cores_than_files (L C : Nat) (h : L < C) :
    (partitions L C).length = C ∧
    C - L ≤ ((partitions L C).map (fun p => p.chunkToUse)).count 0 ∧
    ((partitions L C).map (fun p => p.chunkToUse)).sum = (L : Int) := by
  have hC : 1 ≤ C := by omega
  have hc : chunkSize L C = 0 := by
    unfold chunkSize
    rw [Nat.div_eq_of_lt h]
    rfl
  rw [partitions_chunkToUse L C hC, hc]
  refine ⟨by simp [partitions], ?_, ?_⟩
  · rw [List.count_append, List.count_replicate_self]
    by_cases hL : L = 0
    · subst hL
      simp
      omega
    · omega
  · simp

/-- C2, witness: two files on five cores give the lengths `[0, 0, 0, 0, 2]`. -/
theorem more_cores_than_files_witness :
    2 < 5 ∧
    (partitions 2 5).map (fun p => p.chunkToUse) = [0, 0, 0, 0, 2] ∧
    ((partitions 2 5).length = 5 ∧
    5 - 2 ≤ ((partitions 2 5).map (fun p => p.chunkToUse)).count 0 ∧
    ((partitions 2 5).map (fun p => p.chunkToUse)).sum = ((2 : Nat) : Int)) :=
  ⟨by decide, by decide, more_cores_than_files 2 5 (by decide)⟩

/-! ## Claim C10 -/

theorem queryLoop_insufficientBuffer (sz n : Nat) (calls : List GlpiCall) :
    queryLoop sz (insufficientBuffer n ++ calls) = queryLoop sz calls := by
  induction n with
  | zero => simp [insufficientBuffer]
  | succ n ih =>
    unfold insufficientBuffer at ih ⊢
    rw [List.replicate_succ, List.cons_append, queryLoop, if_pos rfl, ih]

theorem queryLoop_ne_zero (sz : Nat) (calls : List GlpiCall) :
    queryLoop sz calls ≠ some 0 := by
  induction calls with
  | nil => simp [queryLoop]
  | cons c rest ih =>
    cases c with
    | FALSE e =>
      rw [queryLoop]
      split
      · exact ih
      · simp [defaultProcessorCount]
    | TRUE buffer =>
      rw [queryLoop]
      intro h
      rw [Option.some.injEq] at h
      split at h <;> omega

theorem queryLoop_isSome (sz : Nat) (calls : List GlpiCall)
    (h : ∃ c ∈ calls, c.isFinal = true) : (queryLoop sz calls).isSome = true := by
  induction calls with
  | nil => simp at h
  | cons c rest ih =>
    cases c with
    | FALSE e =>
      rw [queryLoop]
      split
      · rename_i he
        apply ih
        obtain ⟨c, hc, hfin⟩ := h
        rcases List.mem_cons.mp hc with rfl | hc
        · simp [GlpiCall.isFinal, he] at hfin
        · exact ⟨c, hc, hfin⟩
      · rfl
    | TRUE buffer => simp [queryLoop]

/-! ## Claim C4 -/

/-- C4: whatever the topology lookup answers and whatever records it returns,
`GetCoreCount` never returns 0, and it does return as soon as one call is answered
by something other than a request for a larger buffer; when the entry point
`GetLogicalProcessorInformation` is unavailable the result is exactly 2, and when
the query fails with an error other than insufficient-buffer (after any number of
insufficient-buffer answers) the result is exactly 2. -/
theorem GetCoreCount_never_zero (sz : Nat) :
    (∀ glpi, GetCoreCount sz glpi ≠ some 0) ∧
    (∀ calls, (∃ c ∈ calls, c.isFinal = true) →
      ∃ n, GetCoreCount sz (some calls) = some n ∧ n ≠ 0) ∧
    GetCoreCount sz none = some 2 ∧
    (∀ retries lastError rest, lastError ≠ ERROR_INSUFFICIENT_BUFFER →
      GetCoreCount sz
        (some (insufficientBuffer retries ++ GlpiCall.FALSE lastError :: rest)) = some 2) := by
  have hne : ∀ glpi, GetCoreCount sz glpi ≠ some 0 := by
    intro glpi
    cases glpi with
    | none => simp [GetCoreCount, defaultProcessorCount]
    | some calls => exact queryLoop_ne_zero sz calls
  refine ⟨hne, ?_, rfl, ?_⟩
  · intro calls h
    have hs := queryLoop_isSome sz calls h
    obtain ⟨n, hn⟩ := Option.isSome_iff_exists.mp hs
    refine ⟨n, hn, ?_⟩
    rintro rfl
    exact hne (some calls) hn
  · intro retries lastError rest he
    simp only [GetCoreCount]
    rw [queryLoop_insufficientBuffer, queryLoop, if_neg he]
    rfl

/-- C4, witness: two requests for a larger buffer, then access denied. -/
theorem GetCoreCount_never_zero_witness :
    GetCoreCount 8 (some [GlpiCall.FALSE 122, GlpiCall.FALSE 122, GlpiCall.FALSE 5]) = some 2 ∧
    GetCoreCount 8 (some [GlpiCall.FALSE 122, GlpiCall.TRUE [⟨0, 0⟩, ⟨255, 1⟩]]) = some 1 ∧
    GetCoreCount 8
      (some (insufficientBuffer 2 ++ GlpiCall.FALSE ERROR_ACCESS_DENIED :: [])) = some 2 :=
  ⟨by decide, by decide,
    (GetCoreCount_never_zero 8).2.2.2 2 ERROR_ACCESS_DENIED [] (by decide)⟩

/-! ## Claim C9 -/

/-- With the singleton lock acquired, `_tmain` goes on to `ParseArgs`. -/
theorem tmain_of_lockAcquired (env : Env) (argv : List WString)
    (hlock : env.lockAcquired = true) :
    _tmain env argv =
      match (ParseArgs env.oob Globals.initial argv).ret with
      | none => ⟨Status.abnormal, (ParseArgs env.oob Globals.initial argv).out, []⟩
      | some false => ⟨Status.exit 3, (ParseArgs env.oob Globals.initial argv).out, []⟩
      | some true =>
        flushTarget env (ParseArgs env.oob Globals.initial argv).g
          (ParseArgs env.oob Globals.initial argv).out := by
  unfold Env.lockAcquired at hlock
  unfold _tmain
  cases hm : env.CreateMutex with
  | NULL => rw [hm] at hlock; simp at hlock
  | INVALID_HANDLE_VALUE => rw [hm] at hlock; simp at hlock
  | handle lastError =>
    rw [hm] at hlock
    have hne : lastError ≠ ERROR_ALREADY_EXISTS := by simpa using hlock
    simp only [hne, if_false]

/-- The loop of `ParseArgs` prints nothing but the help text and the unknown-option
line. -/
theorem ParseArgsLoop_out (oob : Nat → Char) (rest : List WString) :
    ∀ (i : Nat) (g : Globals) (out : List Event),
      ∀ e ∈ (ParseArgsLoop oob i rest g out).out, e ∈ out ∨ e.isEviction = false := by
  induction rest with
  | nil =>
    intro i g out e he
    exact Or.inl he
  | cons arg rest ih =>
    intro i g out e he
    rw [ParseArgsLoop] at he
    split at he
    · split at he
      · exact ih _ _ _ e he
      · exact Or.inl he
    · simp only at he
      generalize (if charAt arg 0 = NUL then oob i else charAt arg 1) = c at he
      split at he
      · exact ih _ _ _ e he
      · split at he
        · exact ih _ _ _ e he
        · split at he
          · rcases List.mem_append.mp he with h | h
            · exact Or.inl h
            · right
              rw [List.mem_singleton.mp h]
              rfl
          · rcases List.mem_append.mp he with h | h
            · exact Or.inl h
            · right
              simp only [List.mem_cons, List.mem_singleton, List.not_mem_nil, or_false] at h
              rcases h with h | h <;> rw [h] <;> rfl

/-- The function `ParseArgs` prints nothing that counts as eviction. -/
theorem ParseArgs_out (oob : Nat → Char) (g : Globals) (argv : List WString) :
    ∀ e ∈ (ParseArgs oob g argv).out, e.isEviction = false := by
  intro e he
  unfold ParseArgs at he
  split at he
  · simp at he
  · rcases ParseArgsLoop_out oob _ _ _ _ e he with h | h
    · simp at h
    · exact h

/-- C5: for every outcome of opening the volume handle, `FlushDrive` returns true
if and only if the open succeeded or failed with `ERROR_SHARING_VIOLATION` or
`ERROR_ACCESS_DENIED`, and false for every other open error; `_tmain`, run on a bare
drive with the lock acquired, then exits with code 5, and with code 0 when
`FlushDrive` returns true. -/
theorem FlushDrive_decides_exit_code :
    (∀ (CreateFile : WString → OpenResult) (drive : WString),
      ((FlushDrive CreateFile drive).1 = true ↔
        (CreateFile (fullDrivePath drive) = OpenResult.handle ∨
          CreateFile (fullDrivePath drive) =
            OpenResult.INVALID_HANDLE_VALUE ERROR_SHARING_VIOLATION ∨
          CreateFile (fullDrivePath drive) =
            OpenResult.INVALID_HANDLE_VALUE ERROR_ACCESS_DENIED)) ∧
      (∀ lastError, CreateFile (fullDrivePath drive) =
          OpenResult.INVALID_HANDLE_VALUE lastError →
        lastError ≠ ERROR_SHARING_VIOLATION → lastError ≠ ERROR_ACCESS_DENIED →
        (FlushDrive CreateFile drive).1 = false)) ∧
    (∀ (env : Env) (argv : List WString),
      env.lockAcquired = true →
      (ParseArgs env.oob Globals.initial argv).ret = some true →
      (resolveTarget env (ParseArgs env.oob Globals.initial argv).g).2 ≠
        INVALID_FILE_ATTRIBUTES →
      (resolveTarget env (ParseArgs env.oob Globals.initial argv).g).2 &&&
        FILE_ATTRIBUTE_DIRECTORY ≠ 0 →
      isDrive (resolveTarget env
        (ParseArgs env.oob Globals.initial argv).g).1.gStartFileOrDir = true →
      (_tmain env argv).status =
        Status.exit (if (FlushDrive env.CreateFileVolume (resolveTarget env
          (ParseArgs env.oob Globals.initial argv).g).1.gStartFileOrDir).1 then 0 else 5)) := by
  constructor
  · intro CreateFile drive
    constructor
    · unfold FlushDrive
      cases h : CreateFile (fullDrivePath drive) with
      | handle => simp
      | INVALID_HANDLE_VALUE gle =>
        simp only [ne_eq, OpenResult.INVALID_HANDLE_VALUE.injEq, false_or,
          reduceCtorEq]
        by_cases h1 : gle = ERROR_SHARING_VIOLATION
        · simp [h1]
        · by_cases h2 : gle = ERROR_ACCESS_DENIED
          · simp [h2]
          · simp [h1, h2]
    · intro lastError h h1 h2
      unfold FlushDrive
      rw [h]
      simp [h1, h2]
  · intro env argv hlock hparse hattr hdir hdrive
    rw [tmain_of_lockAcquired env argv hlock, hparse]
    simp only [flushTarget, hattr, hdir, hdrive, if_false, if_true, ne_eq, not_false_eq_true]

/-- C5, witness: `FlushCache C:` where opening the volume fails with error 2. -/
theorem FlushDrive_decides_exit_code_witness :
    (sampleEnv 16 [] (OpenResult.INVALID_HANDLE_VALUE 2)).lockAcquired = true ∧
    (_tmain (sampleEnv 16 [] (OpenResult.INVALID_HANDLE_VALUE 2))
      [sampleProgram, ['C', ':']]).status = Status.exit 5 ∧
    (_tmain (sampleEnv 16 [] (OpenResult.INVALID_HANDLE_VALUE ERROR_SHARING_VIOLATION))
      [sampleProgram, ['C', ':']]).status = Status.exit 0 ∧
    (_tmain (sampleEnv 16 [] (OpenResult.INVALID_HANDLE_VALUE 2))
        [sampleProgram, ['C', ':']]).status =
      Status.exit (if (FlushDrive (sampleEnv 16 [] (OpenResult.INVALID_HANDLE_VALUE 2)).CreateFileVolume
        (resolveTarget (sampleEnv 16 [] (OpenResult.INVALID_HANDLE_VALUE 2))
          (ParseArgs (sampleEnv 16 [] (OpenResult.INVALID_HANDLE_VALUE 2)).oob Globals.initial
            [sampleProgram, ['C', ':']]).g).1.gStartFileOrDir).1 then 0 else 5) :=
  ⟨by decide, by decide, by decide,
    FlushDrive_decides_exit_code.2 (sampleEnv 16 [] (OpenResult.INVALID_HANDLE_VALUE 2))
      [sampleProgram, ['C', ':']] (by decide) (by decide) (by decide) (by decide) (by decide)⟩

/-! ## Claim C7 -/

/-- C7: with the singleton lock acquired and arguments that parse successfully, for
every target path that does not exist (the attribute lookup returns the invalid
value) `_tmain` exits with code 2 and attempts no eviction: it enters none of
`FlushFile`, `RecurseDirectory`, `FlushDrive` and starts no thread, whatever the
flags `-v` and `-q`. -/
theorem missing_target_exits_2 (env : Env) (argv : List WString)
    (hlock : env.lockAcquired = true)
    (hparse : (ParseArgs env.oob Globals.initial argv).ret = some true)
    (htarget : charAt (ParseArgs env.oob Globals.initial argv).g.gStartFileOrDir 0 ≠ NUL)
    (hmissing : env.GetFileAttributes
      (ParseArgs env.oob Globals.initial argv).g.gStartFileOrDir = INVALID_FILE_ATTRIBUTES) :
    (_tmain env argv).status = Status.exit 2 ∧
    (_tmain env argv).noEviction = true ∧
    (∀ e ∈ (_tmain env argv).out, ∀ p,
      e ≠ Event.FlushFile p ∧ e ≠ Event.RecurseDirectory p ∧ e ≠ Event.FlushDrive p) ∧
    (_tmain env argv).threads = [] := by
  have hres : resolveTarget env (ParseArgs env.oob Globals.initial argv).g =
      ((ParseArgs env.oob Globals.initial argv).g, INVALID_FILE_ATTRIBUTES) := by
    unfold resolveTarget
    rw [if_neg htarget, hmissing]
  have hall : ∀ e ∈ (_tmain env argv).out, e.isEviction = false := by
    rw [tmain_of_lockAcquired env argv hlock, hparse]
    simp only [flushTarget, hres, if_true]
    intro e he
    rcases List.mem_append.mp he with h | h
    · exact ParseArgs_out _ _ _ e h
    · split at h
      · rw [List.mem_singleton.mp h]
        rfl
      · simp at h
  have hthreads : (_tmain env argv).threads = [] := by
    rw [tmain_of_lockAcquired env argv hlock, hparse]
    simp only [flushTarget, hres, if_true]
  refine ⟨?_, ?_, ?_, hthreads⟩
  · rw [tmain_of_lockAcquired env argv hlock, hparse]
    simp only [flushTarget, hres, if_true]
  · unfold Result.noEviction
    rw [hthreads, Bool.and_eq_true, List.all_eq_true]
    exact ⟨fun e he => by simp [hall e he], rfl⟩
  · intro e he p
    have := hall e he
    refine ⟨?_, ?_, ?_⟩ <;> rintro rfl <;> simp [Event.isEviction] at this

/-- C7, witness: `FlushCache -v -q C:\missing` on a host where no path exists. -/
theorem missing_target_exits_2_witness :
    (sampleEnv INVALID_FILE_ATTRIBUTES sampleListing OpenResult.handle).lockAcquired = true ∧
    _tmain (sampleEnv INVALID_FILE_ATTRIBUTES sampleListing OpenResult.handle)
      [sampleProgram, ['-', 'v'], ['-', 'q'], ['C', ':', backslash, 'm']] =
        ⟨Status.exit 2, [], []⟩ ∧
    ((_tmain (sampleEnv INVALID_FILE_ATTRIBUTES sampleListing OpenResult.handle)
      [sampleProgram, ['-', 'v'], ['-', 'q'], ['C', ':', backslash, 'm']]).status =
        Status.exit 2 ∧
    (_tmain (sampleEnv INVALID_FILE_ATTRIBUTES sampleListing OpenResult.handle)
      [sampleProgram, ['-', 'v'], ['-', 'q'], ['C', ':', backslash, 'm']]).noEviction = true ∧
    (∀ e ∈ (_tmain (sampleEnv INVALID_FILE_ATTRIBUTES sampleListing OpenResult.handle)
      [sampleProgram, ['-', 'v'], ['-', 'q'], ['C', ':', backslash, 'm']]).out, ∀ p,
      e ≠ Event.FlushFile p ∧ e ≠ Event.RecurseDirectory p ∧ e ≠ Event.FlushDrive p) ∧
    (_tmain (sampleEnv INVALID_FILE_ATTRIBUTES sampleListing OpenResult.handle)
      [sampleProgram, ['-', 'v'], ['-', 'q'], ['C', ':', backslash, 'm']]).threads = []) :=
  ⟨by decide, by decide,
    missing_target_exits_2 (sampleEnv INVALID_FILE_ATTRIBUTES sampleListing OpenResult.handle)
      [sampleProgram, ['-', 'v'], ['-', 'q'], ['C', ':', backslash, 'm']]
      (by decide) (by decide) (by decide) (by decide)⟩

/-! ## Claim C8 -/

mutual
theorem findNextLoop_out (g : Globals) (d : WString) : ∀ (l : List Entry) (st : EnumState),
    ∃ more, (findNextLoop g d l st).out = st.out ++ more ∧
      ∀ e ∈ more, e.isEnumeration = true
  | [], st => ⟨[], by simp [findNextLoop], by simp⟩
  | x :: rest, st => by
    obtain ⟨m1, h1, h1'⟩ := loopBody_out g d x st
    obtain ⟨m2, h2, h2'⟩ := findNextLoop_out g d rest (loopBody g d x st)
    refine ⟨m1 ++ m2, ?_, ?_⟩
    · rw [findNextLoop, h2, h1, List.append_assoc]
    · intro e he
      rcases List.mem_append.mp he with h | h
      · exact h1' e h
      · exact h2' e h
theorem loopBody_out (g : Globals) (d : WString) : ∀ (x : Entry) (st : EnumState),
    ∃ more, (loopBody g d x st).out = st.out ++ more ∧
      ∀ e ∈ more, e.isEnumeration = true
  | .mk n a ch, st => by
    rw [loopBody]
    split
    · split
      · exact ⟨[], by simp, by simp⟩
      · obtain ⟨m, h, h'⟩ := RecurseDirectory_out g (joinPath d n) ch st
        refine ⟨Event.RecurseDirectory (joinPath d n) :: m, h, ?_⟩
        intro e he
        rcases List.mem_cons.mp he with h | h
        · rw [h]
          rfl
        · exact h' e h
    · exact ⟨[], by simp, by simp⟩
theorem RecurseDirectory_out (g : Globals) (d : WString) :
    ∀ (l : List Entry) (st : EnumState),
    ∃ more, (RecurseDirectory g d l st).2.out = st.out ++ Event.RecurseDirectory d :: more ∧
      ∀ e ∈ more, e.isEnumeration = true
  | [], st => by
    rw [RecurseDirectory]
    simp only
    split
    · refine ⟨_, rfl, ?_⟩
      intro e he
      split at he
      · rw [List.mem_singleton.mp he]
        rfl
      · simp at he
    · exact ⟨[], rfl, by simp⟩
  | x :: rest, st => by
    rw [RecurseDirectory]
    simp only
    split
    · refine ⟨_, rfl, ?_⟩
      intro e he
      split at he
      · rw [List.mem_singleton.mp he]
        rfl
      · simp at he
    · obtain ⟨m1, h1, h1'⟩ := loopBody_out g d x
        { st with out := st.out ++ [Event.RecurseDirectory d] }
      obtain ⟨m2, h2, h2'⟩ := findNextLoop_out g d rest
        (loopBody g d x { st with out := st.out ++ [Event.RecurseDirectory d] })
      refine ⟨m1 ++ m2, ?_, ?_⟩
      · simp only [h2, h1, List.append_assoc, List.singleton_append, List.cons_append,
          List.nil_append]
      · intro e he
        rcases List.mem_append.mp he with h | h
        · exact h1' e h
        · exact h2' e h
end

/-! ## The file list does not depend on the state `RecurseDirectory` starts from -/

mutual
theorem findNextLoop_frame (g : Globals) (d : WString) :
    ∀ (l : List Entry) (st : EnumState),
    (findNextLoop g d l st).fileList =
      st.fileList ++ (findNextLoop g d l ⟨[], []⟩).fileList
  | [], st => by simp [findNextLoop]
  | x :: rest, st => by
    rw [findNextLoop, findNextLoop, findNextLoop_frame g d rest (loopBody g d x st),
      findNextLoop_frame g d rest (loopBody g d x ⟨[], []⟩), loopBody_frame g d x st,
      List.append_assoc]
theorem loopBody_frame (g : Globals) (d : WString) : ∀ (x : Entry) (st : EnumState),
    (loopBody g d x st).fileList = st.fileList ++ (loopBody g d x ⟨[], []⟩).fileList
  | .mk n a ch, st => by
    rw [loopBody, loopBody]
    split
    · split
      · simp
      · exact RecurseDirectory_frame g (joinPath d n) ch st
    · simp
theorem RecurseDirectory_frame (g : Globals) (d : WString) :
    ∀ (l : List Entry) (st : EnumState),
    (RecurseDirectory g d l st).2.fileList =
      st.fileList ++ (RecurseDirectory g d l ⟨[], []⟩).2.fileList
  | [], st => by
    rw [RecurseDirectory, RecurseDirectory]
    simp only
    split <;> simp
  | x :: rest, st => by
    rw [RecurseDirectory, RecurseDirectory]
    simp only
    split
    · simp
    · rw [findNextLoop_frame g d rest (loopBody g d x _),
        findNextLoop_frame g d rest (loopBody g d x ⟨[], [] ++ [Event.RecurseDirectory d]⟩),
        loopBody_frame g d x ⟨st.fileList, _⟩,
        loopBody_frame g d x ⟨[], [] ++ [Event.RecurseDirectory d]⟩]
      simp
end

theorem isRegular_eq_false_iff (a : Nat) :
    isRegular a = false ↔ a &&& FILE_ATTRIBUTE_DIRECTORY ≠ 0 := by
  simp [isRegular]

theorem ReachableDir.dir_mono {d : WString} {l l2 : List Entry} {p : WString}
    (hsub : ∀ e ∈ l, e ∈ l2) (h : ReachableDir d l p) : ReachableDir d l2 p := by
  cases h with
  | dir hmem hreg hdot => exact ReachableDir.dir (hsub _ hmem) hreg hdot
  | inSubdir hmem hreg hdot hsubdir => exact ReachableDir.inSubdir (hsub _ hmem) hreg hdot hsubdir

theorem ReachableFile.file_mono {d : WString} {l l2 : List Entry} {p : WString}
    (hsub : ∀ e ∈ l, e ∈ l2) (h : ReachableFile d l p) : ReachableFile d l2 p := by
  cases h with
  | file hmem hreg => exact ReachableFile.file (hsub _ hmem) hreg
  | inSubdir hmem hreg hdot hsubdir =>
    exact ReachableFile.inSubdir (hsub _ hmem) hreg hdot hsubdir

mutual
theorem findNextLoop_fileList (g : Globals) (d : WString) :
    ∀ (l : List Entry) (st : EnumState),
    (∀ p, ReachableDir d l p → p.length + 2 < MAX_PATH) →
    (findNextLoop g d l st).fileList = st.fileList ++ regularFiles d l
  | [], st, _ => by simp [findNextLoop, regularFiles]
  | x :: rest, st, hfit => by
    have hx : ∀ p, ReachableDir d [x] p → p.length + 2 < MAX_PATH := fun p hp =>
      hfit p (hp.dir_mono (fun e he => by
        rw [List.mem_singleton.mp he]
        exact List.mem_cons_self _ _))
    have hrest : ∀ p, ReachableDir d rest p → p.length + 2 < MAX_PATH := fun p hp =>
      hfit p (hp.dir_mono (fun e he => List.mem_cons_of_mem _ he))
    rw [findNextLoop, findNextLoop_fileList g d rest _ hrest, loopBody_fileList g d x st hx,
      regularFiles, List.append_assoc]
theorem loopBody_fileList (g : Globals) (d : WString) : ∀ (x : Entry) (st : EnumState),
    (∀ p, ReachableDir d [x] p → p.length + 2 < MAX_PATH) →
    (loopBody g d x st).fileList = st.fileList ++ regularFilesOf d x
  | .mk n a ch, st, hfit => by
    rw [loopBody, regularFilesOf]
    by_cases hdir : a &&& FILE_ATTRIBUTE_DIRECTORY ≠ 0
    · have hreg : isRegular a = false := (isRegular_eq_false_iff a).mpr hdir
      rw [if_pos hdir, hreg]
      by_cases hdot : isDotOrDotDot n = true
      · simp [hdot]
      · have hdot2 : isDotOrDotDot n = false := by simpa using hdot
        have hsub : PathsFit (joinPath d n) ch :=
          ⟨hfit _ (ReachableDir.dir (List.mem_singleton.mpr rfl) hreg hdot2),
            fun p hp => hfit p
              (ReachableDir.inSubdir (List.mem_singleton.mpr rfl) hreg hdot2 hp)⟩
        rw [if_neg hdot, RecurseDirectory_fileList g (joinPath d n) ch st hsub]
        simp [hdot2]
    · have hreg : isRegular a = true := by
        simpa [isRegular] using hdir
      rw [if_neg hdir, hreg]
      simp
theorem RecurseDirectory_fileList (g : Globals) (d : WString) :
    ∀ (l : List Entry) (st : EnumState), PathsFit d l →
    (RecurseDirectory g d l st).2.fileList = st.fileList ++ regularFiles d l
  | [], st, hfit => by
    have hlen : ¬ (d.length + 2 ≥ MAX_PATH) := by
      have := hfit.1
      omega
    rw [RecurseDirectory]
    simp only [hlen, if_false]
    simp [regularFiles]
  | x :: rest, st, hfit => by
    have hlen : ¬ (d.length + 2 ≥ MAX_PATH) := by
      have := hfit.1
      omega
    have hx : ∀ p, ReachableDir d [x] p → p.length + 2 < MAX_PATH := fun p hp =>
      hfit.2 p (hp.dir_mono (fun e he => by
        rw [List.mem_singleton.mp he]
        exact List.mem_cons_self _ _))
    have hrest : ∀ p, ReachableDir d rest p → p.length + 2 < MAX_PATH := fun p hp =>
      hfit.2 p (hp.dir_mono (fun e he => List.mem_cons_of_mem _ he))
    rw [RecurseDirectory]
    simp only [hlen, if_false]
    rw [findNextLoop_fileList g d rest _ hrest, loopBody_fileList g d x _ hx, regularFiles,
      List.append_assoc]
end

mutual
theorem reachable_of_mem_regularFiles (d : WString) : ∀ (l : List Entry) (p : WString),
    p ∈ regularFiles d l → ReachableFile d l p
  | [], p, h => by simp [regularFiles] at h
  | x :: rest, p, h => by
    rw [regularFiles, List.mem_append] at h
    rcases h with h | h
    · exact (reachable_of_mem_regularFilesOf d x p h).file_mono (fun e he => by
        rw [List.mem_singleton.mp he]
        exact List.mem_cons_self _ _)
    · exact (reachable_of_mem_regularFiles d rest p h).file_mono
        (fun e he => List.mem_cons_of_mem _ he)
theorem reachable_of_mem_regularFilesOf (d : WString) : ∀ (x : Entry) (p : WString),
    p ∈ regularFilesOf d x → ReachableFile d [x] p
  | .mk n a ch, p, h => by
    rw [regularFilesOf] at h
    by_cases hreg : isRegular a = true
    · rw [if_pos hreg, List.mem_singleton] at h
      rw [h]
      exact ReachableFile.file (List.mem_singleton.mpr rfl) hreg
    · rw [if_neg hreg] at h
      by_cases hdot : isDotOrDotDot n = true
      · rw [if_pos hdot] at h
        simp at h
      · rw [if_neg hdot] at h
        exact ReachableFile.inSubdir (List.mem_singleton.mpr rfl) (by simpa using hreg)
          (by simpa using hdot) (reachable_of_mem_regularFiles (joinPath d n) ch p h)
end

theorem regularFilesOf_subset (d : WString) (x : Entry) :
    ∀ (l : List Entry), x ∈ l → ∀ p ∈ regularFilesOf d x, p ∈ regularFiles d l := by
  intro l
  induction l with
  | nil => intro h; simp at h
  | cons y rest ih =>
    intro hx p hp
    rw [regularFiles, List.mem_append]
    rcases List.mem_cons.mp hx with rfl | hmem
    · exact Or.inl hp
    · exact Or.inr (ih hmem p hp)

theorem mem_regularFiles_of_reachable {d : WString} {l : List Entry} {p : WString}
    (h : ReachableFile d l p) : p ∈ regularFiles d l := by
  induction h with
  | file hmem hreg =>
    refine regularFilesOf_subset _ _ _ hmem _ ?_
    rw [regularFilesOf, if_pos hreg]
    exact List.mem_singleton.mpr rfl
  | inSubdir hmem hreg hdot _ ih =>
    refine regularFilesOf_subset _ _ _ hmem _ ?_
    rw [regularFilesOf, if_neg (by simp [hreg]), if_neg (by simp [hdot])]
    exact ih

/-- The list `regularFiles` holds exactly the reachable regular files. -/
theorem mem_regularFiles_iff (d : WString) (l : List Entry) (p : WString) :
    p ∈ regularFiles d l ↔ ReachableFile d l p :=
  ⟨reachable_of_mem_regularFiles d l p, mem_regularFiles_of_reachable⟩

/-! ## Paths and their first component -/

theorem joinPath_eq (d n : WString) : joinPath d n = d ++ backslash :: n := rfl

/-- A reachable file lies strictly below the directory it is reached from. -/
theorem ReachableFile.file_below {d : WString} {l : List Entry} {p : WString}
    (h : ReachableFile d l p) : ∃ t, p = d ++ backslash :: t := by
  induction h with
  | file _ _ => exact ⟨_, rfl⟩
  | inSubdir _ _ _ _ ih =>
    obtain ⟨t, ht⟩ := ih
    exact ⟨_, by rw [ht, joinPath_eq, List.append_assoc]; rfl⟩

theorem ReachableDir.dir_below {d : WString} {l : List Entry} {p : WString}
    (h : ReachableDir d l p) : ∃ t, p = d ++ backslash :: t := by
  induction h with
  | dir _ _ _ => exact ⟨_, rfl⟩
  | inSubdir _ _ _ _ ih =>
    obtain ⟨t, ht⟩ := ih
    exact ⟨_, by rw [ht, joinPath_eq, List.append_assoc]; rfl⟩

/-- Two names without separator that are followed by nothing or by a separator and
give the same string are the same name. -/
theorem first_component_unique : ∀ (n1 n2 t1 t2 : WString),
    backslash ∉ n1 → backslash ∉ n2 →
    (t1 = [] ∨ ∃ t, t1 = backslash :: t) → (t2 = [] ∨ ∃ t, t2 = backslash :: t) →
    n1 ++ t1 = n2 ++ t2 → n1 = n2 ∧ t1 = t2
  | [], [], t1, t2, _, _, _, _, h => ⟨rfl, by simpa using h⟩
  | [], c :: n2, t1, t2, _, h2, ht1, _, h => by
    exfalso
    rcases ht1 with rfl | ⟨t, rfl⟩
    · simp at h
    · simp only [List.nil_append, List.cons_append, List.cons.injEq] at h
      exact h2 (by rw [← h.1]; exact List.mem_cons_self _ _)
  | c :: n1, [], t1, t2, h1, _, _, ht2, h => by
    exfalso
    rcases ht2 with rfl | ⟨t, rfl⟩
    · simp at h
    · simp only [List.nil_append, List.cons_append, List.cons.injEq] at h
      exact h1 (by rw [h.1]; exact List.mem_cons_self _ _)
  | c :: n1, c2 :: n2, t1, t2, h1, h2, ht1, ht2, h => by
    simp only [List.cons_append, List.cons.injEq] at h
    obtain ⟨hn, ht⟩ := first_component_unique n1 n2 t1 t2
      (fun hm => h1 (List.mem_cons_of_mem _ hm)) (fun hm => h2 (List.mem_cons_of_mem _ hm))
      ht1 ht2 h.2
    exact ⟨by rw [h.1, hn], ht⟩

/-- The same fact for full paths below one directory. -/
theorem joinPath_first_component (d n1 n2 t1 t2 : WString)
    (h1 : backslash ∉ n1) (h2 : backslash ∉ n2)
    (ht1 : t1 = [] ∨ ∃ t, t1 = backslash :: t) (ht2 : t2 = [] ∨ ∃ t, t2 = backslash :: t)
    (h : joinPath d n1 ++ t1 = joinPath d n2 ++ t2) : n1 = n2 ∧ t1 = t2 := by
  simp only [joinPath_eq, List.append_assoc, List.cons_append, List.append_cancel_left_eq,
    List.cons.injEq, true_and] at h
  exact first_component_unique n1 n2 t1 t2 h1 h2 ht1 ht2 h

/-! ## Well-formed listings -/

theorem wellFormed_cons (e : Entry) (rest : List Entry) :
    wellFormed (e :: rest) = true ↔
      wellFormedEntry e = true ∧ (∀ y ∈ rest, y.cFileName ≠ e.cFileName) ∧
        wellFormed rest = true := by
  rw [wellFormed]
  simp only [Bool.and_eq_true, List.all_eq_true, bne_iff_ne, ne_eq, and_assoc]

theorem wellFormedEntry_mk (n : WString) (a : Nat) (ch : List Entry) :
    wellFormedEntry (Entry.mk n a ch) = true ↔
      backslash ∉ n ∧
        (isRegular a = true ∨ isDotOrDotDot n = true ∨ wellFormed ch = true) := by
  rw [wellFormedEntry]
  simp only [Bool.and_eq_true, Bool.or_eq_true, Bool.not_eq_true', List.contains_eq_any_beq,
    List.any_eq_false, beq_iff_eq, or_assoc]
  constructor
  · rintro ⟨h1, h2⟩
    exact ⟨fun hm => h1 _ hm rfl, h2⟩
  · rintro ⟨h1, h2⟩
    exact ⟨fun x hx hxe => h1 (hxe ▸ hx), h2⟩

theorem wellFormedEntry_of_mem : ∀ (l : List Entry), wellFormed l = true →
    ∀ y ∈ l, wellFormedEntry y = true := by
  intro l
  induction l with
  | nil => intro _ y hy; simp at hy
  | cons e rest ih =>
    intro h y hy
    rw [wellFormed_cons] at h
    rcases List.mem_cons.mp hy with rfl | hmem
    · exact h.1
    · exact ih h.2.2 y hmem

/-- In a well-formed listing an entry is determined by its name. -/
theorem entry_unique_of_name : ∀ (l : List Entry), wellFormed l = true →
    ∀ (n : WString) (a a2 : Nat) (ch ch2 : List Entry),
      Entry.mk n a ch ∈ l → Entry.mk n a2 ch2 ∈ l → a = a2 ∧ ch = ch2 := by
  intro l
  induction l with
  | nil => intro _ n a a2 ch ch2 h; simp at h
  | cons e rest ih =>
    intro h n a a2 ch ch2 h1 h2
    rw [wellFormed_cons] at h
    rcases List.mem_cons.mp h1 with h1 | h1 <;> rcases List.mem_cons.mp h2 with h2 | h2
    · rw [← h1] at h2
      simp only [Entry.mk.injEq, true_and] at h2
      exact ⟨h2.1.symm, h2.2.symm⟩
    · exact absurd (by rw [← h1]; rfl) (h.2.1 _ h2)
    · exact absurd (by rw [← h2]; rfl) (h.2.1 _ h1)
    · exact ih h.2.2 n a a2 ch ch2 h1 h2

/-- The first component of a reachable file below `d` is the name of an entry. -/
theorem ReachableFile.file_first_component {d : WString} {l : List Entry} {p : WString}
    (h : ReachableFile d l p) :
    ∃ n a ch t, Entry.mk n a ch ∈ l ∧ p = joinPath d n ++ t ∧
      (t = [] ∨ ∃ t2, t = backslash :: t2) := by
  cases h with
  | file hmem _ => exact ⟨_, _, _, [], hmem, by simp, Or.inl rfl⟩
  | inSubdir hmem _ _ hsub =>
    obtain ⟨t, ht⟩ := hsub.file_below
    exact ⟨_, _, _, backslash :: t, hmem, ht, Or.inr ⟨t, rfl⟩⟩

mutual
theorem nodup_regularFiles (d : WString) : ∀ (l : List Entry), wellFormed l = true →
    (regularFiles d l).Nodup
  | [], _ => by simp [regularFiles]
  | x :: rest, h => by
    rw [wellFormed_cons] at h
    rw [regularFiles]
    refine List.Nodup.append (nodup_regularFilesOf d x h.1) (nodup_regularFiles d rest h.2.2) ?_
    intro p hp1 hp2
    obtain ⟨n1, a1, ch1, t1, hm1, he1, ht1⟩ :=
      (reachable_of_mem_regularFilesOf d x p hp1).file_first_component
    obtain ⟨n2, a2, ch2, t2, hm2, he2, ht2⟩ :=
      (reachable_of_mem_regularFiles d rest p hp2).file_first_component
    have hx : x = Entry.mk n1 a1 ch1 := (List.mem_singleton.mp hm1).symm
    have hw1 : backslash ∉ n1 := by
      have := h.1
      rw [hx, wellFormedEntry_mk] at this
      exact this.1
    have hw2 : backslash ∉ n2 :=
      ((wellFormedEntry_mk _ _ _).mp (wellFormedEntry_of_mem rest h.2.2 _ hm2)).1
    have hn := (joinPath_first_component d n1 n2 t1 t2 hw1 hw2 ht1 ht2 (he1 ▸ he2)).1
    refine h.2.1 _ hm2 ?_
    rw [hx, ← hn]
    rfl
theorem nodup_regularFilesOf (d : WString) : ∀ (x : Entry), wellFormedEntry x = true →
    (regularFilesOf d x).Nodup
  | .mk n a ch, h => by
    rw [wellFormedEntry_mk] at h
    rw [regularFilesOf]
    by_cases hreg : isRegular a = true
    · rw [if_pos hreg]
      exact List.nodup_singleton _
    · rw [if_neg hreg]
      by_cases hdot : isDotOrDotDot n = true
      · rw [if_pos hdot]
        exact List.nodup_nil
      · rw [if_neg hdot]
        rcases h.2 with h2 | h2 | h2
        · exact absurd h2 hreg
        · exact absurd h2 hdot
        · exact nodup_regularFiles (joinPath d n) ch h2
end

/-- The first component of a reachable directory below `d` is the name of an entry
that is a directory. -/
theorem ReachableDir.dir_first_component {d : WString} {l : List Entry} {p : WString}
    (h : ReachableDir d l p) :
    ∃ n a ch t, Entry.mk n a ch ∈ l ∧ isRegular a = false ∧ p = joinPath d n ++ t ∧
      (t = [] ∨ ∃ t2, t = backslash :: t2) ∧
      (t = [] ∨ ReachableDir (joinPath d n) ch p) := by
  cases h with
  | dir hmem hreg _ => exact ⟨_, _, _, [], hmem, hreg, by simp, Or.inl rfl, Or.inl rfl⟩
  | inSubdir hmem hreg _ hsub =>
    obtain ⟨t, ht⟩ := hsub.dir_below
    exact ⟨_, _, _, backslash :: t, hmem, hreg, ht, Or.inr ⟨t, rfl⟩, Or.inr hsub⟩

/-- In a well-formed listing no reachable regular file has the path of a reachable
directory. -/
theorem ReachableFile.not_reachableDir {d : WString} {l : List Entry} {p : WString}
    (h : ReachableFile d l p) : wellFormed l = true → ¬ ReachableDir d l p := by
  induction h with
  | @file d l n a ch hmem hreg =>
    intro hwf hdir
    have hw : backslash ∉ n :=
      ((wellFormedEntry_mk _ _ _).mp (wellFormedEntry_of_mem l hwf _ hmem)).1
    obtain ⟨n2, a2, ch2, t2, hmem2, hreg2, he2, ht2, _⟩ := hdir.dir_first_component
    have hw2 : backslash ∉ n2 :=
      ((wellFormedEntry_mk _ _ _).mp (wellFormedEntry_of_mem l hwf _ hmem2)).1
    have hn := (joinPath_first_component d n n2 [] t2 hw hw2 (Or.inl rfl) ht2
      (by simpa using he2)).1
    subst hn
    have := (entry_unique_of_name l hwf n a a2 ch ch2 hmem hmem2).1
    rw [this, hreg2] at hreg
    exact Bool.false_ne_true hreg
  | @inSubdir d l n a ch p hmem hreg hdot hsubfile ih =>
    intro hwf hdir
    have hwe := (wellFormedEntry_mk _ _ _).mp (wellFormedEntry_of_mem l hwf _ hmem)
    obtain ⟨t, ht⟩ := hsubfile.file_below
    have hwch : wellFormed ch = true := by
      rcases hwe.2 with h2 | h2 | h2
      · rw [hreg] at h2
        exact absurd h2 Bool.false_ne_true
      · rw [hdot] at h2
        exact absurd h2 Bool.false_ne_true
      · exact h2
    obtain ⟨n2, a2, ch2, t2, hmem2, _, he2, ht2, hcases⟩ := hdir.dir_first_component
    have hw2 : backslash ∉ n2 :=
      ((wellFormedEntry_mk _ _ _).mp (wellFormedEntry_of_mem l hwf _ hmem2)).1
    obtain ⟨hn, htt⟩ := joinPath_first_component d n n2 (backslash :: t) t2 hwe.1 hw2
      (Or.inr ⟨t, rfl⟩) ht2 (ht ▸ he2)
    subst hn
    rcases hcases with h0 | hsubdir
    · rw [h0] at htt
      simp at htt
    · have := (entry_unique_of_name l hwf n a a2 ch ch2 hmem hmem2).2
      rw [← this] at hsubdir
      exact ih hwch hsubdir

/-! ## The order of enumeration -/

theorem findNextLoop_cons_fileList (g : Globals) (d : WString) (x : Entry)
    (rest : List Entry) :
    (findNextLoop g d (x :: rest) ⟨[], []⟩).fileList =
      (loopBody g d x ⟨[], []⟩).fileList ++ (findNextLoop g d rest ⟨[], []⟩).fileList := by
  rw [findNextLoop, findNextLoop_frame]

theorem enumerated_eq (g : Globals) (d : WString) (l : List Entry) :
    enumerated g d l =
      if d.length + 2 ≥ MAX_PATH then [] else (findNextLoop g d l ⟨[], []⟩).fileList := by
  unfold enumerated
  cases l with
  | nil =>
    rw [RecurseDirectory]
    simp only
    split <;> simp [findNextLoop]
  | cons x rest =>
    rw [RecurseDirectory]
    simp only
    split
    · rfl
    · rw [findNextLoop_frame, loopBody_frame, findNextLoop_cons_fileList]
      simp

theorem loopBody_mk_fileList (g : Globals) (d n : WString) (a : Nat) (ch : List Entry) :
    (loopBody g d (Entry.mk n a ch) ⟨[], []⟩).fileList =
      if a &&& FILE_ATTRIBUTE_DIRECTORY ≠ 0 then
        if isDotOrDotDot n then [] else enumerated g (joinPath d n) ch
      else [joinPath d n] := by
  rw [loopBody]
  split
  · split
    · rfl
    · rfl
  · rfl

/-- Enumerating the entries of any directory in another order permutes the entries
found by the loop. -/
theorem findNextLoop_perm (g : Globals) {l l2 : List Entry} (h : Reordered l l2) :
    ∀ d, ((findNextLoop g d l ⟨[], []⟩).fileList).Perm
      ((findNextLoop g d l2 ⟨[], []⟩).fileList) := by
  induction h with
  | nil => intro d; exact List.Perm.refl _
  | @cons n a ch ch2 rest rest2 _ _ ihch ihrest =>
    intro d
    rw [findNextLoop_cons_fileList, findNextLoop_cons_fileList, loopBody_mk_fileList,
      loopBody_mk_fileList, enumerated_eq g (joinPath d n) ch,
      enumerated_eq g (joinPath d n) ch2]
    refine List.Perm.append ?_ (ihrest d)
    split
    · split
      · exact List.Perm.refl _
      · split
        · exact List.Perm.refl _
        · exact ihch (joinPath d n)
    · exact List.Perm.refl _
  | @swap a b rest =>
    intro d
    rw [findNextLoop_cons_fileList, findNextLoop_cons_fileList, findNextLoop_cons_fileList,
      findNextLoop_cons_fileList]
    exact List.perm_append_comm_assoc _ _ _
  | trans _ _ ih1 ih2 =>
    intro d
    exact (ih1 d).trans (ih2 d)

theorem enumerated_perm (g : Globals) (d : WString) {l l2 : List Entry}
    (h : Reordered l l2) : (enumerated g d l2).Perm (enumerated g d l) := by
  rw [enumerated_eq, enumerated_eq]
  split
  · exact List.Perm.refl _
  · exact (findNextLoop_perm g h d).symm

/-! ## The length test -/

theorem dirFits_of_mem (d : WString) : ∀ (l : List Entry), dirsFit d l = true →
    ∀ e ∈ l, dirFits d e = true := by
  intro l
  induction l with
  | nil => intro _ e he; simp at he
  | cons x rest ih =>
    intro h e he
    rw [dirsFit, Bool.and_eq_true] at h
    rcases List.mem_cons.mp he with rfl | hmem
    · exact h.1
    · exact ih h.2 e hmem

theorem ReachableDir.fits {d : WString} {l : List Entry} {p : WString}
    (h : ReachableDir d l p) : dirsFit d l = true → p.length + 2 < MAX_PATH := by
  induction h with
  | dir hmem hreg hdot =>
    intro hfit
    have := dirFits_of_mem _ _ hfit _ hmem
    rw [dirFits, hreg, hdot] at this
    simp only [Bool.or_self, Bool.false_or, Bool.and_eq_true, decide_eq_true_eq] at this
    exact this.1
  | inSubdir hmem hreg hdot _ ih =>
    intro hfit
    have := dirFits_of_mem _ _ hfit _ hmem
    rw [dirFits, hreg, hdot] at this
    simp only [Bool.or_self, Bool.false_or, Bool.and_eq_true, decide_eq_true_eq] at this
    exact ih this.2

/-- The check `pathsFit` establishes `PathsFit`. -/
theorem PathsFit_of_pathsFit (d : WString) (l : List Entry) (h : pathsFit d l = true) :
    PathsFit d l := by
  rw [pathsFit, Bool.and_eq_true, decide_eq_true_eq] at h
  exact ⟨h.1, fun p hp => hp.fits h.2⟩

/-! ## Claim C3 -/

set_option maxRecDepth 100000 in
/-- C3, counterexample: the well-formed tree `deepListing` below `C:\w` holds the
regular file `C:\w\aaa...a\bbb...b\f`, whose directory has a path of 266
characters; `RecurseDirectory`, started with an empty list, produces only
`C:\w\aaa...a\g` and omits that file. -/
theorem long_directory_omitted :
    wellFormed deepListing = true ∧
    ReachableFile sampleRoot deepListing deepFileF ∧
    enumerated Globals.initial sampleRoot deepListing = [deepFileG] ∧
    deepFileF ∉ enumerated Globals.initial sampleRoot deepListing := by
  have henum : enumerated Globals.initial sampleRoot deepListing = [deepFileG] := by decide
  refine ⟨by decide, ?_, henum, ?_⟩
  · exact @ReachableFile.inSubdir sampleRoot deepListing (List.replicate 130 'a') 16
      deepListingA deepFileF (by simp [deepListing]) (by decide) (by decide)
      (@ReachableFile.inSubdir _ deepListingA (List.replicate 130 'b') 16
        deepListingB deepFileF (by simp [deepListingA]) (by decide) (by decide)
        (@ReachableFile.file _ deepListingB ['f'] 32 [] (by simp [deepListingB])
          (by decide)))
  · rw [henum]
    decide

/-- C3 (amended): for every directory tree in which every directory to be entered,
the root included, passes the length test of `RecurseDirectory`
(`_tcslen(dirPath) + 2 < MAX_PATH`), calling `RecurseDirectory` on the root with an
empty list produces a list whose entries are exactly the full paths of the regular
files reachable from the root, one entry for each file of the tree; when the names
in every directory are pairwise different and free of path separators, no entry
occurs twice and no entry is the root or the path of a reachable directory; and
enumerating the entries of the directories in another order only permutes the
list. -/
theorem RecurseDirectory_enumerates (g : Globals) (root : WString) (listing : List Entry)
    (hfit : PathsFit root listing) :
    (∀ p, p ∈ enumerated g root listing ↔ ReachableFile root listing p) ∧
    enumerated g root listing = regularFiles root listing ∧
    (wellFormed listing = true →
      (enumerated g root listing).Nodup ∧
      ∀ p ∈ enumerated g root listing, p ≠ root ∧ ¬ ReachableDir root listing p) ∧
    (∀ listing2, Reordered listing listing2 →
      (enumerated g root listing2).Perm (enumerated g root listing)) := by
  have heq : enumerated g root listing = regularFiles root listing := by
    unfold enumerated
    rw [RecurseDirectory_fileList g root listing _ hfit]
    rfl
  refine ⟨?_, heq, ?_, fun listing2 h => enumerated_perm g root h⟩
  · intro p
    rw [heq]
    exact mem_regularFiles_iff root listing p
  · intro hwf
    rw [heq]
    refine ⟨nodup_regularFiles root listing hwf, ?_⟩
    intro p hp
    have hr := (mem_regularFiles_iff root listing p).mp hp
    refine ⟨?_, hr.not_reachableDir hwf⟩
    obtain ⟨t, ht⟩ := hr.file_below
    intro hroot
    have := congrArg List.length ht
    rw [hroot] at this
    simp at this

/-- C3, witness: the tree `sampleListing` below `C:\w` passes the length test and
is enumerated as `a`, `d\b`, `d\c`, `e`. -/
theorem RecurseDirectory_enumerates_witness :
    pathsFit sampleRoot sampleListing = true ∧
    wellFormed sampleListing = true ∧
    enumerated Globals.initial sampleRoot sampleListing =
      [joinPath sampleRoot ['a'], joinPath (joinPath sampleRoot ['d']) ['b'],
        joinPath (joinPath sampleRoot ['d']) ['c'], joinPath sampleRoot ['e']] ∧
    ((∀ p, p ∈ enumerated Globals.initial sampleRoot sampleListing ↔
      ReachableFile sampleRoot sampleListing p) ∧
    enumerated Globals.initial sampleRoot sampleListing =
      regularFiles sampleRoot sampleListing ∧
    (wellFormed sampleListing = true →
      (enumerated Globals.initial sampleRoot sampleListing).Nodup ∧
      ∀ p ∈ enumerated Globals.initial sampleRoot sampleListing,
        p ≠ sampleRoot ∧ ¬ ReachableDir sampleRoot sampleListing p) ∧
    (∀ listing2, Reordered sampleListing listing2 →
      (enumerated Globals.initial sampleRoot listing2).Perm
        (enumerated Globals.initial sampleRoot sampleListing))) :=
  ⟨by decide, by decide, by decide,
    RecurseDirectory_enumerates Globals.initial sampleRoot sampleListing
      (PathsFit_of_pathsFit sampleRoot sampleListing (by decide))⟩

end FlushCache
